import Mathlib

/-!
Verification of `src/preprocessing/automate_muhammad_rizky_fajar.py`.

The source is a single pandas/scikit-learn batch preprocessing routine
(`automate_preprocessing`).  This file gives a shallow embedding of the
routine: a pandas `DataFrame` becomes a list of named, dtyped columns of
cells; `pd.to_numeric(..., errors='coerce')`, `Series.replace`,
`LabelEncoder`, `SimpleImputer`, `MinMaxScaler`, `OneHotEncoder` and the
`ColumnTransformer` dispatch are modelled as executable functions on
rationals (floating-point arithmetic is modelled by exact rational
arithmetic, which the claims' formulas `(x - min)/(max - min)` use).
-/

namespace Telco

/-- A cell of a pandas column: a string, a (finite) number, or the missing
marker `NaN`.  Floating-point numbers are modelled as rationals. -/
inductive Cell where
  | str (s : String)
  | num (q : ℚ)
  | na
deriving DecidableEq, Repr

/-- Pandas dtype of a column, as far as the source distinguishes them:
`select_dtypes(include='object')` picks `obj`, `select_dtypes(include=
['int64','float64'])` picks `i64`/`f64`, anything else (e.g. a bool
column) falls to the `remainder='passthrough'` branch; `boolean` stands
for those remaining dtypes. -/
inductive DType where
  | i64
  | f64
  | obj
  | boolean
deriving DecidableEq, Repr

/-- A named pandas column. -/
structure Column where
  name : String
  dtype : DType
  cells : List Cell
deriving DecidableEq, Repr

/-- A pandas `DataFrame`: columns in order (each of equal length in a
well-formed frame). -/
abbrev Table := List Column

def Cell.isStr : Cell → Bool
  | .str _ => true
  | _ => false

def Cell.isNum : Cell → Bool
  | .num _ => true
  | _ => false

/-- `df[name]`, first column of that name (pandas label lookup). -/
def findCol (df : Table) (name : String) : Option Column :=
  df.find? (fun c => c.name = name)

/-! ### Cleaning rules (source lines 17-19) -/

/-- The six service-attribute columns of Rule 1 (source line 17). -/
def serviceCols : List String :=
  ["OnlineSecurity", "OnlineBackup", "DeviceProtection", "TechSupport",
   "StreamingTV", "StreamingMovies"]

/-- Rule 1 on one cell: `replace({'No internet service': 'No'})`. -/
def rule1Cell (c : Cell) : Cell :=
  if c = .str "No internet service" then .str "No" else c

/-- Rule 2 on one cell: `replace({'No phone service': 'No'})`. -/
def rule2Cell (c : Cell) : Cell :=
  if c = .str "No phone service" then .str "No" else c

/-- Rules 1 and 2 on a whole table.  The source loops
`df[col] = df[col].replace({...})` over the six service columns and then
does the same for `MultipleLines`; since the seven column names are
pairwise distinct and `Series.replace` is an elementwise map, this equals
the per-column dispatch below. -/
def rules12Col (c : Column) : Column :=
  if c.name ∈ serviceCols then { c with cells := c.cells.map rule1Cell }
  else if c.name = "MultipleLines" then { c with cells := c.cells.map rule2Cell }
  else c

def applyRules12 (df : Table) : Table :=
  df.map rules12Col

/-! ### Rule 3: `pd.to_numeric(df['TotalCharges'], errors='coerce')`
(source line 22) -/

/-- Numeric value of a list of decimal digit characters. -/
def digitsVal (ds : List Char) : ℕ :=
  ds.foldl (fun n d => 10 * n + (d.toNat - 48)) 0

/-- Strip leading and trailing whitespace (pandas' numeric parser accepts
surrounding whitespace). -/
def trimWs (cs : List Char) : List Char :=
  ((cs.dropWhile Char.isWhitespace).reverse.dropWhile Char.isWhitespace).reverse

/-- Parse the optional exponent tail `e±ddd` / `E±ddd`; `none` when the
remaining characters are not a valid exponent (or not empty). -/
def parseExpTail (cs : List Char) : Option ℤ :=
  match cs with
  | [] => some 0
  | c :: r =>
    if c = 'e' ∨ c = 'E' then
      let (neg, r') : Bool × List Char :=
        match r with
        | '-' :: r' => (true, r')
        | '+' :: r' => (false, r')
        | _ => (false, r)
      let (ds, rest) := r'.span Char.isDigit
      if ds = [] ∨ rest ≠ [] then none
      else some (if neg then -(digitsVal ds : ℤ) else (digitsVal ds : ℤ))
    else none

/-- Model of the decimal parser behind `pd.to_numeric` / `float(str)`:
optional sign, digits with an optional fractional part, optional exponent,
surrounding whitespace tolerated; at least one digit is required in the
mantissa.  (`inf`/`nan` literals are not modelled; they do not occur in
the dataset and no claim mentions them.) -/
def parseRat (s : String) : Option ℚ :=
  let cs := trimWs s.toList
  let (sgn, cs) : ℚ × List Char :=
    match cs with
    | '-' :: r => (-1, r)
    | '+' :: r => (1, r)
    | _ => (1, cs)
  let (ip, cs) := cs.span Char.isDigit
  let (fp, cs) : List Char × List Char :=
    match cs with
    | '.' :: r => r.span Char.isDigit
    | _ => ([], cs)
  if ip = [] ∧ fp = [] then none
  else
    let mant : ℚ := (digitsVal ip : ℚ) + (digitsVal fp : ℚ) / (10 ^ fp.length : ℚ)
    match parseExpTail cs with
    | none => none
    | some e =>
      some (sgn * mant * (if 0 ≤ e then (10 : ℚ) ^ e.toNat else ((10 : ℚ) ^ (-e).toNat)⁻¹))

/-- `to_numeric` with `errors='coerce'` on one cell: numbers pass through,
missing stays missing, a string parses or becomes `NaN` — never an error. -/
def toNumericCell (c : Cell) : Cell :=
  match c with
  | .num q => .num q
  | .na => .na
  | .str s =>
    match parseRat s with
    | some q => .num q
    | none => .na

/-- Rule 3 on the table: coerce the `TotalCharges` column.  The resulting
dtype is numeric; `pd.to_numeric` returns `int64` when every entry is an
integer literal and `float64` otherwise — both select as numeric in every
later step, so the model uses `f64` uniformly. -/
def coerceTCCol (c : Column) : Column :=
  if c.name = "TotalCharges" then
    { c with dtype := .f64, cells := c.cells.map toNumericCell }
  else c

def coerceTotalCharges (df : Table) : Table :=
  df.map coerceTCCol

/-- Per-column composition of all three cleaning rules. -/
def cleanCol (c : Column) : Column :=
  coerceTCCol (rules12Col c)

/-- The cleaning stage, source lines 17-22. -/
def cleanAll (df : Table) : Table :=
  coerceTotalCharges (applyRules12 df)

/-! ### Splitting (source lines 25-29) -/

/-- `df.drop(name, axis=1)` (as a total column filter; the pipeline checks
presence of the dropped label separately, mirroring the `KeyError`). -/
def dropColTotal (df : Table) (name : String) : Table :=
  df.filter (fun c => c.name ≠ name)

/-- The feature table `X`: the cleaned frame minus `customerID` (line 25)
and minus `Churn` (line 28). -/
def featureX (df : Table) : Table :=
  dropColTotal (dropColTotal df "customerID") "Churn"

/-- Cells of the target column `Churn`. -/
def churnCells (df : Table) : List Cell :=
  match findCol df "Churn" with
  | some c => c.cells
  | none => []

/-! ### The string order used by `np.unique`

`np.unique` sorts string arrays lexicographically by Unicode code point.
We embed that order as an executable comparison on the character lists of
the strings (Lean's own `String` order agrees with it, but its decision
procedure does not reduce inside the kernel, so we carry our own). -/

/-- Code-point lexicographic `≤` on character lists. -/
def charListLe : List Char → List Char → Bool
  | [], _ => true
  | _ :: _, [] => false
  | a :: as, b :: bs =>
    if a.toNat < b.toNat then true
    else if b.toNat < a.toNat then false
    else charListLe as bs

/-- Code-point lexicographic `≤` on strings, as a relation. -/
def strLeP (a b : String) : Prop := charListLe a.toList b.toList = true

instance : DecidableRel strLeP := fun _ _ => instDecidableEqBool _ _

/-! ### `LabelEncoder` (source lines 32-35)

`le.fit_transform(y)`: `classes_ = np.unique(y)` (the distinct values in
sorted order) and each label is encoded as its index in `classes_`;
`inverse_transform` indexes back into `classes_`. -/

/-- `classes_` of a fitted `LabelEncoder`: the distinct labels in
lexicographic order (`np.unique`). -/
def leClasses (ys : List String) : List String :=
  List.insertionSort strLeP ys.dedup

/-- `le.transform` of one label: its index in `classes_`. -/
def leTransform (classes : List String) (y : String) : ℕ :=
  classes.indexOf y

/-- `le.inverse_transform` of one code: `classes_[i]`. -/
def leInverse (classes : List String) (i : ℕ) : String :=
  classes.getD i ""

/-! ### Numeric sub-pipeline: `SimpleImputer(strategy='mean')` then
`MinMaxScaler` (source lines 47-50) -/

/-- Numeric view of a cell (`None` = missing).  A string in an
`int64`/`float64` column is unrepresentable in pandas; the pipeline's
type check (`typesOk`) excludes it. -/
def cellNum? (c : Cell) : Option ℚ :=
  match c with
  | .num q => some q
  | _ => none

/-- The observed (non-missing) values of a numeric column. -/
def obsVals (cells : List (Option ℚ)) : List ℚ :=
  cells.filterMap id

/-- Mean of a list of rationals (the fit statistic of
`SimpleImputer(strategy='mean')`; only used on nonempty lists, since the
imputer discards columns with no observed value). -/
def meanOf (xs : List ℚ) : ℚ :=
  xs.sum / (xs.length : ℚ)

/-- `SimpleImputer(strategy='mean').fit_transform` on one column with at
least one observed value: fill each missing entry with the fit-time mean. -/
def simpleImputerMean (cells : List (Option ℚ)) : List ℚ :=
  cells.map (fun c => c.getD (meanOf (obsVals cells)))

/-- Minimum of a list (`np.min`; junk value 0 on the empty list, which the
pipeline never hits because empty columns are discarded earlier). -/
def listMin : List ℚ → ℚ
  | [] => 0
  | [x] => x
  | x :: y :: t => min x (listMin (y :: t))

/-- Maximum of a list (`np.max`). -/
def listMax : List ℚ → ℚ
  | [] => 0
  | [x] => x
  | x :: y :: t => max x (listMax (y :: t))

/-- `MinMaxScaler` transform of one value given the fit statistics:
`(x - min) / (max - min)`, where a zero range is replaced by 1
(`_handle_zeros_in_scale`), so a constant column maps to 0. -/
def mmScale (lo hi x : ℚ) : ℚ :=
  (x - lo) / (if hi - lo = 0 then 1 else hi - lo)

/-- `MinMaxScaler().fit_transform` on one (already imputed) column. -/
def minMaxScalerFitTransform (xs : List ℚ) : List ℚ :=
  xs.map (mmScale (listMin xs) (listMax xs))

/-- The fitted numeric pipeline applied to its own fit data
(`numeric_transformer.fit_transform` on one column): impute with the mean,
then min-max scale with the min/max of the imputed column. -/
def numericFitTransform (cells : List (Option ℚ)) : List ℚ :=
  minMaxScalerFitTransform (simpleImputerMean cells)

/-! ### Categorical sub-pipeline:
`SimpleImputer(strategy='constant', fill_value='missing')` then
`OneHotEncoder(handle_unknown='ignore')` (source lines 52-55) -/

/-- Constant imputation of one categorical cell: `NaN` becomes the literal
string `"missing"`; strings pass through.  A number inside an
`object`-dtype column never occurs in a frame produced by `read_csv` and
is rejected by the pipeline's type check; its stringification here is a
harmless placeholder. -/
def catImputeStr (c : Cell) : String :=
  match c with
  | .str s => s
  | .na => "missing"
  | .num q => toString q

/-- The fitted one-hot vocabulary of one categorical column
(`OneHotEncoder` `categories_`): distinct imputed values in sorted order
(`np.unique`). -/
def fitVocab (cells : List Cell) : List String :=
  List.insertionSort strLeP (cells.map catImputeStr).dedup

/-- One-hot indicators of one (imputed) category value against a fitted
vocabulary: indicator 1 where the vocabulary entry equals the value, else
0; an out-of-vocabulary value yields all zeros
(`handle_unknown='ignore'`). -/
def oneHotRow (vocab : List String) (v : String) : List ℚ :=
  vocab.map (fun u => if u = v then 1 else 0)

/-! ### `ColumnTransformer` (source lines 58-73) -/

/-- The columns fed to the numeric pipeline:
`X.select_dtypes(include=['int64','float64'])` (source line 39), in
original column order. -/
def numericCols (X : Table) : Table :=
  X.filter (fun c => c.dtype = .i64 ∨ c.dtype = .f64)

/-- The columns fed to the categorical pipeline:
`X.select_dtypes(include='object')` (source line 38). -/
def categoricalCols (X : Table) : Table :=
  X.filter (fun c => c.dtype = .obj)

/-- The columns of neither kind, kept by `remainder='passthrough'`
(source line 63). -/
def remainderCols (X : Table) : Table :=
  X.filter (fun c => ¬(c.dtype = .i64 ∨ c.dtype = .f64 ∨ c.dtype = .obj))

/-- Fit statistics of one kept numeric column. -/
structure NumColFit where
  name : String
  mean : ℚ
  lo : ℚ
  hi : ℚ
deriving DecidableEq, Repr

/-- Fitted one-hot state of one categorical column. -/
structure CatColFit where
  name : String
  vocab : List String
deriving DecidableEq, Repr

/-- The fitted `ColumnTransformer` artifact (what line 75 serializes):
numeric statistics, categorical vocabularies, and the names of the
passthrough columns. -/
structure FittedPreprocessor where
  nums : List NumColFit
  cats : List CatColFit
  remainderNames : List String
deriving DecidableEq, Repr

/-- Fit the numeric pipeline on one column; `none` when the column has no
observed value, in which case `SimpleImputer(strategy='mean')` discards it
at transform time (`keep_empty_features=False`, the default). -/
def fitNumCol (c : Column) : Option NumColFit :=
  let opts := c.cells.map cellNum?
  if obsVals opts = [] then none
  else
    let ys := simpleImputerMean opts
    some ⟨c.name, meanOf (obsVals opts), listMin ys, listMax ys⟩

/-- Fit the categorical pipeline on one column. -/
def fitCatCol (c : Column) : CatColFit :=
  ⟨c.name, fitVocab c.cells⟩

/-- An output column of the transformed feature table. -/
structure OutCol where
  name : String
  cells : List Cell
deriving DecidableEq, Repr

/-- The numeric pipeline's output for one column: `none` when the column
has no observed value at fit time (the mean imputer then discards it at
transform time, `keep_empty_features=False` default), else the imputed and
scaled column. -/
def numColOut (c : Column) : Option OutCol :=
  if obsVals (c.cells.map cellNum?) = [] then none
  else some ⟨c.name, (numericFitTransform (c.cells.map cellNum?)).map Cell.num⟩

/-- The numeric block of `preprocessor.fit_transform(X)`, one transformed
column per numeric input column with at least one observed value
(all-missing columns are discarded by the mean imputer). -/
def numBlock (X : Table) : List OutCol :=
  (numericCols X).filterMap numColOut

/-- No numeric feature column is entirely missing at fit time (so the mean
imputer discards nothing). -/
def noEmptyNum (X : Table) : Prop :=
  ∀ c ∈ numericCols X, obsVals (c.cells.map cellNum?) ≠ []

instance : DecidablePred noEmptyNum := fun X => by
  unfold noEmptyNum
  infer_instance

/-- The one-hot block of `preprocessor.fit_transform(X)`: for each
categorical column (in order) and each vocabulary entry (in vocabulary
order) one indicator column, named `"<column>_<category>"` exactly as
`get_feature_names_out` does (source line 70).  This is the column-major
view of the row-major one-hot matrix. -/
def catBlock (X : Table) : List OutCol :=
  (categoricalCols X).flatMap fun c =>
    (fitVocab c.cells).map fun v =>
      ⟨c.name ++ "_" ++ v,
       c.cells.map (fun x => Cell.num (if catImputeStr x = v then 1 else 0))⟩

/-- The passthrough block: remainder columns unchanged, appended after the
listed transformers. -/
def remBlock (X : Table) : List OutCol :=
  (remainderCols X).map fun c => ⟨c.name, c.cells⟩

/-- `preprocessor.fit_transform(X)` (source line 67), as a columnar
table. -/
def fitTransformTable (X : Table) : List OutCol :=
  numBlock X ++ catBlock X ++ remBlock X

/-- The fitted artifact produced as a side product of the fit. -/
def fitPreprocessor (X : Table) : FittedPreprocessor :=
  ⟨(numericCols X).filterMap fitNumCol,
   (categoricalCols X).map fitCatCol,
   (remainderCols X).map Column.name⟩

/-- `all_feature_names` (source lines 70-71): the numeric column names in
original order followed by the one-hot names in fitted vocabulary order.
Remainder and imputer-discarded columns are NOT represented here, which is
what makes `pd.DataFrame(array, columns=all_feature_names)` (line 73)
raise when the widths disagree. -/
def allFeatureNames (X : Table) : List String :=
  (numericCols X).map Column.name ++
    ((categoricalCols X).map (fun c =>
      (fitVocab c.cells).map (fun v => c.name ++ "_" ++ v))).flatten

/-- Applying the serialized fitted transformer to one new row (the row is
given as a lookup from column name to cell): numeric columns are imputed
with the stored mean and scaled with the stored min/max, categorical
columns are imputed with `"missing"` and one-hot encoded against the
stored vocabulary, remainder columns pass through.  The width of the
result depends only on the fitted state, never on the row. -/
def FittedPreprocessor.transformRow (p : FittedPreprocessor)
    (row : String → Cell) : List Cell :=
  p.nums.map (fun f => Cell.num (mmScale f.lo f.hi ((cellNum? (row f.name)).getD f.mean)))
    ++ (p.cats.map (fun f =>
          (oneHotRow f.vocab (catImputeStr (row f.name))).map Cell.num)).flatten
    ++ p.remainderNames.map row

/-- The number of features the fitted transformer emits. -/
def FittedPreprocessor.width (p : FittedPreprocessor) : ℕ :=
  p.nums.length + (p.cats.map (fun f => f.vocab.length)).sum + p.remainderNames.length

/-! ### The full run (source lines 7-84) -/

/-- Everything a successful run produces: the labelled transformed feature
table (written as CSV, line 79), the encoded target (line 80), and the two
serialized artifacts (lines 35 and 75). -/
structure RunOutput where
  X_processed : List OutCol
  y_encoded : List ℕ
  preprocessor : FittedPreprocessor
  labelEncoderClasses : List String
deriving DecidableEq, Repr

/-- The exceptions the source can actually raise, by the Python exception
class: `KeyError` for a missing column label (lines 17-19, 22, 25, 28-29),
`TypeError` for `np.unique`/`np.sort` over incomparable mixed types
(lines 33, 67), `ValueError` for the `pd.DataFrame` width mismatch
(line 73).  No `LabelCardinalityError` (or any cardinality check) exists
anywhere in the source. -/
inductive PErr where
  | keyError (col : String)
  | typeError
  | valueError
deriving DecidableEq, Repr

/-- The column labels the source reads or drops, in evaluation order. -/
def requiredCols : List String :=
  serviceCols ++ ["MultipleLines", "TotalCharges", "customerID", "Churn"]

/-- First missing required label, mirroring the first `KeyError`. -/
def firstMissing (df : Table) : Option String :=
  requiredCols.find? (fun n => (findCol df n).isNone)

/-- Dtype/cell coherence of the feature table, as pandas guarantees for a
frame read from CSV: an `object` column holds strings or `NaN`, a numeric
column holds numbers or `NaN`.  A violating `object` column would make
`np.unique` raise `TypeError` inside `OneHotEncoder.fit`; a violating
numeric column is unrepresentable in pandas. -/
def typesOk (X : Table) : Bool :=
  X.all fun c =>
    match c.dtype with
    | .obj => c.cells.all (fun x => x.isStr || (x = Cell.na))
    | .i64 => c.cells.all (fun x => x.isNum || (x = Cell.na))
    | .f64 => c.cells.all (fun x => x.isNum || (x = Cell.na))
    | .boolean => true

/-- The first exception the run raises, if any, in source order:
`KeyError` for a missing label (lines 17-29), `TypeError` when the target
column mixes strings with non-strings (`np.unique` on line 33) or a
feature column is dtype-incoherent (line 67), and `ValueError` when the
width of `preprocessor.fit_transform(X)` differs from
`len(all_feature_names)` (line 73) — which happens exactly when a
passthrough column or an imputer-discarded all-missing numeric column
exists. -/
def firstFailure (df : Table) : Option PErr :=
  match firstMissing df with
  | some n => some (.keyError n)
  | none =>
    let dfc := cleanAll df
    let X := featureX dfc
    if ¬ (churnCells dfc).all Cell.isStr then some .typeError
    else if ¬ typesOk X then some .typeError
    else if (fitTransformTable X).length ≠ (allFeatureNames X).length then
      some .valueError
    else none

/-- `pd.DataFrame(X_processed_array, columns=all_feature_names)`
(source line 73): the names are assigned to the array columns
positionally. -/
def assignNames (ns : List String) (bs : List OutCol) : List OutCol :=
  List.zipWith (fun n b => OutCol.mk n b.cells) ns bs

/-- The happy path of the run (assumes `firstFailure df = none`). -/
def runCore (df : Table) : RunOutput :=
  let dfc := cleanAll df
  let X := featureX dfc
  let ys := (churnCells dfc).filterMap fun c =>
    match c with
    | Cell.str s => some s
    | _ => none
  let classes := leClasses ys
  ⟨assignNames (allFeatureNames X) (fitTransformTable X),
   ys.map (leTransform classes), fitPreprocessor X, classes⟩

/-- The embedded `automate_preprocessing`: either the first exception, or
the full set of outputs/artifacts.  (Persistence itself — the four file
writes — is modelled by the presence of the four fields of `RunOutput`.) -/
def automate_preprocessing (df : Table) : Except PErr RunOutput :=
  match firstFailure df with
  | some e => .error e
  | none => .ok (runCore df)

instance {e a : Type} [DecidableEq e] [DecidableEq a] : DecidableEq (Except e a) := fun x y =>
  match x, y with
  | .ok u, .ok v =>
    if h : u = v then isTrue (by rw [h]) else isFalse (by intro hc; cases hc; exact h rfl)
  | .error u, .error v =>
    if h : u = v then isTrue (by rw [h]) else isFalse (by intro hc; cases hc; exact h rfl)
  | .ok _, .error _ => isFalse (by intro hc; cases hc)
  | .error _, .ok _ => isFalse (by intro hc; cases hc)

/-! ### Concrete frames used as test inputs and witnesses -/

/-- An `object`-dtype column of strings, as `read_csv` produces. -/
def objCol (n : String) (vs : List String) : Column :=
  ⟨n, .obj, vs.map Cell.str⟩

/-- A small three-row frame with all the columns the source reads.  Its
target column deliberately has THREE distinct values. -/
def tbl3 : Table :=
  [objCol "customerID" ["a1", "a2", "a3"],
   objCol "gender" ["F", "M", "F"],
   ⟨"tenure", .i64, [Cell.num 1, Cell.num 5, Cell.num 10]⟩,
   objCol "OnlineSecurity" ["Yes", "No internet service", "No"],
   objCol "OnlineBackup" ["No", "No", "Yes"],
   objCol "DeviceProtection" ["No", "Yes", "No"],
   objCol "TechSupport" ["No", "No internet service", "Yes"],
   objCol "StreamingTV" ["Yes", "No", "No"],
   objCol "StreamingMovies" ["No", "Yes", "No"],
   objCol "MultipleLines" ["No phone service", "Yes", "No"],
   objCol "TotalCharges" ["29.85", "", "1889.5"],
   objCol "Churn" ["A", "C", "B"]]

/-- `tbl3` with a binary target, the shape the dataset actually has. -/
def tblBin : Table :=
  tbl3.map fun c => if c.name = "Churn" then objCol "Churn" ["No", "Yes", "No"] else c

/-- `tblBin` plus one extra column whose dtype is neither numeric nor
`object` (a pandas `bool` column), hitting `remainder='passthrough'`. -/
def tblExtra : Table :=
  tblBin ++ [⟨"Extra", .boolean, [Cell.num 1, Cell.num 0, Cell.num 1]⟩]

/-- `tblBin` with every `TotalCharges` entry unparseable. -/
def tblBad : Table :=
  tblBin.map fun c =>
    if c.name = "TotalCharges" then objCol "TotalCharges" ["", " ", "n/a"] else c

/-- Default `RunOutput` used only to extract the payload of a run already
known to succeed. -/
def emptyRun : RunOutput :=
  ⟨[], [], ⟨[], [], []⟩, []⟩

/-- The payload of a successful run. -/
def runOf (df : Table) : RunOutput :=
  (automate_preprocessing df).toOption.getD emptyRun

end Telco

namespace Telco

/-! ## Order facts about `charListLe` / `strLeP` -/

theorem le_of_charListLe_cons {a b : Char} {as bs : List Char}
    (h : charListLe (a :: as) (b :: bs) = true) : a.toNat ≤ b.toNat := by
  by_cases hab : a.toNat < b.toNat
  · omega
  · simp only [charListLe, if_neg hab] at h
    by_cases hba : b.toNat < a.toNat
    · simp [hba] at h
    · omega

theorem charListLe_rest {a b : Char} {as bs : List Char}
    (hab : ¬ a.toNat < b.toNat) (hba : ¬ b.toNat < a.toNat) :
    charListLe (a :: as) (b :: bs) = charListLe as bs := by
  simp [charListLe, hab, hba]

theorem charListLe_total : ∀ as bs : List Char,
    charListLe as bs = true ∨ charListLe bs as = true
  | [], _ => Or.inl rfl
  | _ :: _, [] => Or.inr rfl
  | a :: as, b :: bs => by
    rcases Nat.lt_trichotomy a.toNat b.toNat with h | h | h
    · exact Or.inl (by simp [charListLe, h])
    · rw [charListLe_rest (by omega) (by omega), charListLe_rest (by omega) (by omega)]
      exact charListLe_total as bs
    · exact Or.inr (by simp [charListLe, h])

theorem charListLe_trans : ∀ {as bs cs : List Char},
    charListLe as bs = true → charListLe bs cs = true → charListLe as cs = true
  | [], _, _, _, _ => rfl
  | _ :: _, [], _, h1, _ => by simp [charListLe] at h1
  | _ :: _, _ :: _, [], _, h2 => by simp [charListLe] at h2
  | a :: as, b :: bs, c :: cs, h1, h2 => by
    have h1le := le_of_charListLe_cons h1
    have h2le := le_of_charListLe_cons h2
    by_cases hac : a.toNat < c.toNat
    · simp [charListLe, hac]
    · rw [charListLe_rest (by omega) (by omega)]
      rw [charListLe_rest (by omega) (by omega)] at h1
      rw [charListLe_rest (by omega) (by omega)] at h2
      exact charListLe_trans h1 h2

theorem charListLe_antisymm : ∀ {as bs : List Char},
    charListLe as bs = true → charListLe bs as = true → as = bs
  | [], [], _, _ => rfl
  | [], _ :: _, _, h2 => by simp [charListLe] at h2
  | _ :: _, [], h1, _ => by simp [charListLe] at h1
  | a :: as, b :: bs, h1, h2 => by
    have h1le := le_of_charListLe_cons h1
    have h2le := le_of_charListLe_cons h2
    have hn : a.toNat = b.toNat := by omega
    have hue : a = b := Char.ext (UInt32.ext hn)
    subst hue
    rw [charListLe_rest (by omega) (by omega)] at h1 h2
    rw [charListLe_antisymm h1 h2]

instance : IsTotal String strLeP := ⟨fun a b => charListLe_total a.toList b.toList⟩

instance : IsTrans String strLeP := ⟨fun _ _ _ => charListLe_trans⟩

instance : IsAntisymm String strLeP :=
  ⟨fun _ _ h1 h2 => String.ext (charListLe_antisymm h1 h2)⟩

/-! ## The sorted-deduplicated list produced by `np.unique` -/

/-- `np.unique` of a list of strings: `leClasses` and (after imputation)
`fitVocab` are both of this shape. -/
theorem leClasses_eq_sort (ys : List String) :
    leClasses ys = List.insertionSort strLeP ys.dedup := rfl

theorem sortDedup_perm (ys : List String) :
    List.Perm (List.insertionSort strLeP ys.dedup) ys.dedup :=
  List.perm_insertionSort _ _

theorem sortDedup_nodup (ys : List String) :
    (List.insertionSort strLeP ys.dedup).Nodup :=
  ((sortDedup_perm ys).nodup_iff).mpr ys.nodup_dedup

theorem mem_sortDedup {a : String} {ys : List String} :
    a ∈ List.insertionSort strLeP ys.dedup ↔ a ∈ ys :=
  (sortDedup_perm ys).mem_iff.trans List.mem_dedup

theorem sortDedup_sorted (ys : List String) :
    (List.insertionSort strLeP ys.dedup).Sorted strLeP :=
  List.sorted_insertionSort _ _

theorem sortDedup_eq_of_perm {ys zs : List String} (h : List.Perm ys.dedup zs.dedup) :
    List.insertionSort strLeP ys.dedup = List.insertionSort strLeP zs.dedup :=
  List.eq_of_perm_of_sorted
    ((sortDedup_perm ys).trans (h.trans (sortDedup_perm zs).symm))
    (sortDedup_sorted ys) (sortDedup_sorted zs)

theorem sortDedup_pair {a b : String} {ys : List String}
    (hab : strLeP a b) (h : List.Perm ys.dedup [a, b]) :
    List.insertionSort strLeP ys.dedup = [a, b] :=
  List.eq_of_perm_of_sorted ((sortDedup_perm ys).trans h)
    (sortDedup_sorted ys) (by simp [List.sorted_cons, hab])

end Telco

namespace Telco

/-! ## Facts about `listMin` / `listMax` / `meanOf` -/

theorem listMin_le_mem : ∀ {xs : List ℚ} {y : ℚ}, y ∈ xs → listMin xs ≤ y
  | [x], y, h => by
    rcases List.mem_singleton.mp h with rfl
    simp [listMin]
  | x :: x2 :: t, y, h => by
    rcases List.mem_cons.mp h with rfl | h2
    · exact min_le_left _ _
    · exact le_trans (min_le_right _ _) (listMin_le_mem h2)

theorem le_listMax_mem : ∀ {xs : List ℚ} {y : ℚ}, y ∈ xs → y ≤ listMax xs
  | [x], y, h => by
    rcases List.mem_singleton.mp h with rfl
    simp [listMax]
  | x :: x2 :: t, y, h => by
    rcases List.mem_cons.mp h with rfl | h2
    · exact le_max_left _ _
    · exact le_trans (le_listMax_mem h2) (le_max_right _ _)

theorem listMin_mem : ∀ {xs : List ℚ}, xs ≠ [] → listMin xs ∈ xs
  | [], h => absurd rfl h
  | [x], _ => by simp [listMin]
  | x :: x2 :: t, _ => by
    rcases min_choice x (listMin (x2 :: t)) with h | h
    · exact List.mem_cons.mpr (Or.inl (by rw [listMin, h])) 
    · exact List.mem_cons.mpr (Or.inr (by rw [listMin, h]; exact listMin_mem (by simp)))

theorem listMax_mem : ∀ {xs : List ℚ}, xs ≠ [] → listMax xs ∈ xs
  | [], h => absurd rfl h
  | [x], _ => by simp [listMax]
  | x :: x2 :: t, _ => by
    rcases max_choice x (listMax (x2 :: t)) with h | h
    · exact List.mem_cons.mpr (Or.inl (by rw [listMax, h])) 
    · exact List.mem_cons.mpr (Or.inr (by rw [listMax, h]; exact listMax_mem (by simp)))

theorem meanOf_const {xs : List ℚ} {m : ℚ} (hne : xs ≠ []) (h : ∀ x ∈ xs, x = m) :
    meanOf xs = m := by
  have hx : xs = List.replicate xs.length m := List.eq_replicate_length.mpr h
  have hlen : (xs.length : ℚ) ≠ 0 := by
    have := List.length_pos.mpr hne
    exact_mod_cast Nat.pos_iff_ne_zero.mp this
  rw [meanOf, hx, List.sum_replicate, List.length_replicate, nsmul_eq_mul]
  rw [mul_comm, mul_div_assoc, div_self hlen, mul_one]

/-! ## Facts about `oneHotRow` -/

theorem oneHotRow_all01 (vocab : List String) (v : String) :
    ∀ x ∈ oneHotRow vocab v, x = 0 ∨ x = 1 := by
  intro x hx
  rcases List.mem_map.mp hx with ⟨u, _, rfl⟩
  by_cases h : u = v <;> simp [h]

theorem oneHotRow_all_zero {vocab : List String} {v : String} (hv : v ∉ vocab) :
    ∀ x ∈ oneHotRow vocab v, x = 0 := by
  intro x hx
  rcases List.mem_map.mp hx with ⟨u, hu, rfl⟩
  have : u ≠ v := fun h => hv (h ▸ hu)
  simp [this]

theorem oneHotRow_count_one : ∀ {vocab : List String} {v : String},
    vocab.Nodup → v ∈ vocab → (oneHotRow vocab v).count 1 = 1 := by
  intro vocab
  induction vocab with
  | nil => intro v _ hv; simp at hv
  | cons u rest ih =>
    intro v hnd hv
    have hcons : oneHotRow (u :: rest) v
        = (if u = v then (1 : ℚ) else 0) :: oneHotRow rest v := rfl
    rw [hcons]
    by_cases h : u = v
    · subst h
      rw [if_pos rfl]
      have hnotin : u ∉ rest := (List.nodup_cons.mp hnd).1
      have hone : (1 : ℚ) ∉ oneHotRow rest u :=
        fun hmem => one_ne_zero (oneHotRow_all_zero hnotin 1 hmem)
      rw [List.count_cons_self, List.count_eq_zero.mpr hone]
    · rw [if_neg h]
      have hv' : v ∈ rest := by
        rcases List.mem_cons.mp hv with rfl | hr
        · exact absurd rfl h
        · exact hr
      rw [List.count_cons_of_ne one_ne_zero]
      exact ih (List.nodup_cons.mp hnd).2 hv'

/-! ## Generic list helpers -/

theorem length_filterMap_all_isSome {α β : Type} {f : α → Option β} :
    ∀ {l : List α}, (∀ x ∈ l, (f x).isSome) → (l.filterMap f).length = l.length := by
  intro l
  induction l with
  | nil => intro _; rfl
  | cons a t ih =>
    intro h
    rcases Option.isSome_iff_exists.mp (h a (List.mem_cons_self a t)) with ⟨b, hb⟩
    rw [List.filterMap_cons, hb]
    simp [ih (fun x hx => h x (List.mem_cons_of_mem a hx))]

end Telco

namespace Telco

/-! ## Range of the fitted numeric pipeline -/

theorem numericFitTransform_mem_unit (cells : List (Option ℚ)) :
    ∀ v ∈ numericFitTransform cells, 0 ≤ v ∧ v ≤ 1 := by
  intro v hv
  unfold numericFitTransform minMaxScalerFitTransform at hv
  rcases List.mem_map.mp hv with ⟨y, hy, rfl⟩
  have hlo := listMin_le_mem hy
  have hhi := le_listMax_mem hy
  unfold mmScale
  by_cases hr : listMax (simpleImputerMean cells) - listMin (simpleImputerMean cells) = 0
  · rw [if_pos hr, div_one]
    exact ⟨by linarith, by linarith⟩
  · rw [if_neg hr]
    have hpos : 0 < listMax (simpleImputerMean cells) - listMin (simpleImputerMean cells) :=
      lt_of_le_of_ne (by linarith) (Ne.symm hr)
    constructor
    · exact div_nonneg (by linarith) (le_of_lt hpos)
    · rw [div_le_one hpos]
      linarith

theorem numericFitTransform_const {cells : List (Option ℚ)} {m : ℚ}
    (hne : obsVals cells ≠ []) (hall : ∀ x ∈ obsVals cells, x = m) :
    ∀ v ∈ numericFitTransform cells, v = 0 := by
  have hmean : meanOf (obsVals cells) = m := meanOf_const hne hall
  have hys : ∀ y ∈ simpleImputerMean cells, y = m := by
    intro y hy
    rcases List.mem_map.mp hy with ⟨c, hc, rfl⟩
    cases c with
    | none => simpa [Option.getD] using hmean
    | some x =>
      have hxo : x ∈ obsVals cells := List.mem_filterMap.mpr ⟨some x, hc, rfl⟩
      simpa using hall x hxo
  have hcne : cells ≠ [] := by
    intro h
    rw [h] at hne
    exact hne rfl
  have hysne : simpleImputerMean cells ≠ [] := by
    unfold simpleImputerMean
    simpa using hcne
  have hlo : listMin (simpleImputerMean cells) = m := hys _ (listMin_mem hysne)
  have hhi : listMax (simpleImputerMean cells) = m := hys _ (listMax_mem hysne)
  intro v hv
  unfold numericFitTransform minMaxScalerFitTransform at hv
  rcases List.mem_map.mp hv with ⟨y, hy, rfl⟩
  have hym := hys y hy
  simp [mmScale, hlo, hhi, hym]

end Telco

namespace Telco

/-! ## Structural facts about the cleaning stage -/

theorem rules12Col_name (c : Column) : (rules12Col c).name = c.name := by
  unfold rules12Col
  split
  · rfl
  · split <;> rfl

theorem coerceTCCol_name (c : Column) : (coerceTCCol c).name = c.name := by
  unfold coerceTCCol
  split <;> rfl

theorem cleanCol_name (c : Column) : (cleanCol c).name = c.name := by
  unfold cleanCol
  rw [coerceTCCol_name, rules12Col_name]

theorem rules12Col_cells_length (c : Column) :
    (rules12Col c).cells.length = c.cells.length := by
  unfold rules12Col
  split
  · simp
  · split <;> simp

theorem coerceTCCol_cells_length (c : Column) :
    (coerceTCCol c).cells.length = c.cells.length := by
  unfold coerceTCCol
  split <;> simp

theorem cleanCol_cells_length (c : Column) :
    (cleanCol c).cells.length = c.cells.length := by
  unfold cleanCol
  rw [coerceTCCol_cells_length, rules12Col_cells_length]

theorem cleanAll_eq_map (df : Table) : cleanAll df = df.map cleanCol := by
  unfold cleanAll coerceTotalCharges applyRules12
  rw [List.map_map]
  rfl

theorem findCol_map {g : Column → Column} (hg : ∀ c, (g c).name = c.name)
    (df : Table) (n : String) :
    findCol (df.map g) n = (findCol df n).map g := by
  unfold findCol
  rw [List.find?_map]
  have hpe : ((fun c : Column => decide (c.name = n)) ∘ g)
      = (fun c : Column => decide (c.name = n)) := by
    funext c
    simp [Function.comp, hg]
  rw [hpe]

theorem cleanCol_of_plain {c : Column} (h1 : c.name ∉ serviceCols)
    (h2 : c.name ≠ "MultipleLines") (h3 : c.name ≠ "TotalCharges") :
    cleanCol c = c := by
  unfold cleanCol rules12Col coerceTCCol
  rw [if_neg h1, if_neg h2, if_neg h3]

theorem churnCells_cleanAll (df : Table) :
    churnCells (cleanAll df) = churnCells df := by
  unfold churnCells
  rw [cleanAll_eq_map, findCol_map cleanCol_name]
  cases hf : findCol df "Churn" with
  | none => rfl
  | some c =>
    have hf2 : df.find? (fun x => x.name = "Churn") = some c := hf
    have hname : c.name = "Churn" := by
      have hp := List.find?_some hf2
      simpa using hp
    have hfix : cleanCol c = c := by
      apply cleanCol_of_plain <;> rw [hname] <;> decide
    simp [hfix]

/-! ## Structural facts about the transform blocks -/

theorem numericFitTransform_length (opts : List (Option ℚ)) :
    (numericFitTransform opts).length = opts.length := by
  unfold numericFitTransform minMaxScalerFitTransform simpleImputerMean
  simp

theorem mem_numBlock_shape {X : Table} {oc : OutCol} (h : oc ∈ numBlock X) :
    ∃ c ∈ numericCols X, oc.cells.length = c.cells.length := by
  unfold numBlock at h
  rcases List.mem_filterMap.mp h with ⟨c, hc, heq⟩
  refine ⟨c, hc, ?_⟩
  unfold numColOut at heq
  by_cases hobs : obsVals (c.cells.map cellNum?) = []
  · rw [if_pos hobs] at heq
    cases heq
  · rw [if_neg hobs] at heq
    cases heq
    simp [numericFitTransform_length]

theorem mem_catBlock_shape {X : Table} {oc : OutCol} (h : oc ∈ catBlock X) :
    ∃ c ∈ categoricalCols X, oc.cells.length = c.cells.length := by
  unfold catBlock at h
  rcases List.mem_flatMap.mp h with ⟨c, hc, hmem⟩
  rcases List.mem_map.mp hmem with ⟨v, _, rfl⟩
  exact ⟨c, hc, by simp⟩

theorem mem_remBlock_shape {X : Table} {oc : OutCol} (h : oc ∈ remBlock X) :
    ∃ c ∈ remainderCols X, oc.cells.length = c.cells.length := by
  unfold remBlock at h
  rcases List.mem_map.mp h with ⟨c, hc, rfl⟩
  exact ⟨c, hc, rfl⟩

theorem length_filterMap_eq_iff {α β : Type} {f : α → Option β} :
    ∀ {l : List α}, (l.filterMap f).length = l.length ↔ ∀ x ∈ l, (f x).isSome := by
  intro l
  induction l with
  | nil => simp
  | cons a t ih =>
    cases hfa : f a with
    | none =>
      simp only [List.filterMap_cons, hfa, List.length_cons]
      constructor
      · intro h
        have hle := List.length_filterMap_le f t
        exact absurd h (by omega)
      · intro h
        have := h a (List.mem_cons_self a t)
        rw [hfa] at this
        cases this
    | some b =>
      simp only [List.filterMap_cons, hfa, List.length_cons]
      constructor
      · intro h x hx
        rcases List.mem_cons.mp hx with rfl | hxt
        · rw [hfa]; rfl
        · exact (ih.mp (by omega)) x hxt
      · intro h
        have := ih.mpr (fun x hx => h x (List.mem_cons_of_mem a hx))
        omega

theorem numBlock_length_eq_iff {X : Table} :
    (numBlock X).length = (numericCols X).length ↔ noEmptyNum X := by
  unfold numBlock noEmptyNum
  rw [length_filterMap_eq_iff]
  constructor
  · intro h c hc hobs
    have := h c hc
    unfold numColOut at this
    rw [if_pos hobs] at this
    cases this
  · intro h c hc
    unfold numColOut
    rw [if_neg (h c hc)]
    rfl

theorem catBlock_length (X : Table) :
    (catBlock X).length
      = ((categoricalCols X).map (fun c => (fitVocab c.cells).length)).sum := by
  unfold catBlock
  rw [List.length_flatMap]
  congr 1
  simp

theorem allFeatureNames_length (X : Table) :
    (allFeatureNames X).length
      = (numericCols X).length
          + ((categoricalCols X).map (fun c => (fitVocab c.cells).length)).sum := by
  unfold allFeatureNames
  rw [List.length_append, List.length_map, List.length_flatten]
  congr 2
  rw [List.map_map]
  congr 1
  funext c
  simp [Function.comp]

theorem fitTransformTable_length (X : Table) :
    (fitTransformTable X).length
      = (numBlock X).length + (catBlock X).length + (remBlock X).length := by
  unfold fitTransformTable
  rw [List.length_append, List.length_append, Nat.add_assoc]

theorem widths_match_of_good {X : Table} (hnum : noEmptyNum X)
    (hrem : remainderCols X = []) :
    (fitTransformTable X).length = (allFeatureNames X).length := by
  rw [fitTransformTable_length, allFeatureNames_length, catBlock_length,
    numBlock_length_eq_iff.mpr hnum]
  unfold remBlock
  rw [hrem]
  simp

theorem widths_differ_of_rem {X : Table} (hnum : noEmptyNum X)
    (hrem : remainderCols X ≠ []) :
    (fitTransformTable X).length ≠ (allFeatureNames X).length := by
  rw [fitTransformTable_length, allFeatureNames_length, catBlock_length,
    numBlock_length_eq_iff.mpr hnum]
  unfold remBlock
  have : 0 < (remainderCols X).length := List.length_pos.mpr hrem
  simp only [List.length_map]
  omega

theorem widths_differ_of_empty_num {X : Table} (hnum : ¬ noEmptyNum X)
    (hrem : remainderCols X = []) :
    (fitTransformTable X).length ≠ (allFeatureNames X).length := by
  rw [fitTransformTable_length, allFeatureNames_length, catBlock_length]
  have hlt : (numBlock X).length < (numericCols X).length := by
    have hle := List.length_filterMap_le numColOut (numericCols X)
    have hne : (numBlock X).length ≠ (numericCols X).length :=
      fun h => hnum (numBlock_length_eq_iff.mp h)
    unfold numBlock at hne ⊢
    omega
  unfold remBlock
  rw [hrem]
  simp only [List.map_nil, List.length_nil]
  omega

end Telco

namespace Telco

/-! ## The labeling step and successful-run facts -/

theorem assignNames_names : ∀ {ns : List String} {bs : List OutCol},
    ns.length = bs.length → (assignNames ns bs).map OutCol.name = ns
  | [], [], _ => rfl
  | [], _ :: _, h => by cases h
  | _ :: _, [], h => by cases h
  | n :: ns, b :: bs, h => by
    unfold assignNames
    simp only [List.zipWith_cons_cons, List.map_cons, List.cons.injEq, true_and]
    exact assignNames_names (by simpa using h)

theorem mem_assignNames : ∀ {ns : List String} {bs : List OutCol} {oc : OutCol},
    oc ∈ assignNames ns bs → ∃ b ∈ bs, oc.cells = b.cells
  | [], _, oc, h => by cases h
  | _ :: _, [], oc, h => by cases h
  | n :: ns, b :: bs, oc, h => by
    unfold assignNames at h
    rw [List.zipWith_cons_cons] at h
    rcases List.mem_cons.mp h with heq | ht
    · exact ⟨b, List.mem_cons_self b bs, by rw [heq]⟩
    · rcases mem_assignNames ht with ⟨b2, hb2, he⟩
      exact ⟨b2, List.mem_cons_of_mem b hb2, he⟩

theorem assignNames_self : ∀ bs : List OutCol,
    assignNames (bs.map OutCol.name) bs = bs
  | [] => rfl
  | b :: bs => by
    unfold assignNames
    rw [List.map_cons, List.zipWith_cons_cons]
    have ht := assignNames_self bs
    unfold assignNames at ht
    rw [ht]

theorem filterMap_eq_map_of_all {α β : Type} {f : α → Option β} {g : α → β} :
    ∀ {l : List α}, (∀ x ∈ l, f x = some (g x)) → l.filterMap f = l.map g := by
  intro l
  induction l with
  | nil => intro _; rfl
  | cons a t ih =>
    intro h
    rw [List.filterMap_cons, h a (List.mem_cons_self a t), List.map_cons,
      ih (fun x hx => h x (List.mem_cons_of_mem a hx))]

theorem automate_ok_elim {df : Table} {out : RunOutput}
    (h : automate_preprocessing df = Except.ok out) :
    firstFailure df = none ∧ out = runCore df := by
  unfold automate_preprocessing at h
  cases hff : firstFailure df with
  | some e => rw [hff] at h; cases h
  | none =>
    rw [hff] at h
    cases h
    exact ⟨rfl, rfl⟩

theorem firstFailure_none_elim {df : Table} (h : firstFailure df = none) :
    firstMissing df = none
    ∧ (churnCells (cleanAll df)).all Cell.isStr = true
    ∧ typesOk (featureX (cleanAll df)) = true
    ∧ (fitTransformTable (featureX (cleanAll df))).length
        = (allFeatureNames (featureX (cleanAll df))).length := by
  unfold firstFailure at h
  cases hm : firstMissing df with
  | some n => rw [hm] at h; cases h
  | none =>
    rw [hm] at h
    by_cases hA : (churnCells (cleanAll df)).all Cell.isStr = true
    · rw [if_neg (by simp [hA])] at h
      by_cases hB : typesOk (featureX (cleanAll df)) = true
      · rw [if_neg (by simp [hB])] at h
        by_cases hC : (fitTransformTable (featureX (cleanAll df))).length
            = (allFeatureNames (featureX (cleanAll df))).length
        · exact ⟨rfl, hA, hB, hC⟩
        · rw [if_pos hC] at h
          cases h
      · rw [if_pos (by simp [hB])] at h
        cases h
    · rw [if_pos (by simp [hA])] at h
      cases h

theorem firstFailure_none_intro {df : Table}
    (hm : firstMissing df = none)
    (hA : (churnCells (cleanAll df)).all Cell.isStr = true)
    (hB : typesOk (featureX (cleanAll df)) = true)
    (hC : (fitTransformTable (featureX (cleanAll df))).length
        = (allFeatureNames (featureX (cleanAll df))).length) :
    firstFailure df = none := by
  unfold firstFailure
  rw [hm, if_neg (by simp [hA]), if_neg (by simp [hB]), if_neg (by simp [hC])]

theorem FittedPreprocessor.transformRow_length (p : FittedPreprocessor)
    (row : String → Cell) : (p.transformRow row).length = p.width := by
  unfold FittedPreprocessor.transformRow FittedPreprocessor.width
  rw [List.length_append, List.length_append, List.length_map, List.length_map,
    List.length_flatten, List.map_map]
  have hfg : (List.length ∘ fun f : CatColFit =>
        List.map Cell.num (oneHotRow f.vocab (catImputeStr (row f.name))))
      = fun f : CatColFit => f.vocab.length := by
    funext f
    simp [oneHotRow, Function.comp]
  rw [hfg]

end Telco

namespace Telco

/-! ## Idempotence of the cleaning rules -/

theorem rule1Cell_idem (c : Cell) : rule1Cell (rule1Cell c) = rule1Cell c := by
  by_cases h : c = Cell.str "No internet service"
  · rw [h]
    decide
  · have h1 : rule1Cell c = c := by
      unfold rule1Cell
      rw [if_neg h]
    rw [h1, h1]

theorem rule2Cell_idem (c : Cell) : rule2Cell (rule2Cell c) = rule2Cell c := by
  by_cases h : c = Cell.str "No phone service"
  · rw [h]
    decide
  · have h1 : rule2Cell c = c := by
      unfold rule2Cell
      rw [if_neg h]
    rw [h1, h1]

theorem rules12Col_idem (c : Column) : rules12Col (rules12Col c) = rules12Col c := by
  obtain ⟨n, d, cs⟩ := c
  unfold rules12Col
  by_cases h1 : n ∈ serviceCols
  · simp [h1, List.map_map, Function.comp, rule1Cell_idem]
  · by_cases h2 : n = "MultipleLines"
    · subst h2
      simp [h1, List.map_map, Function.comp, rule2Cell_idem]
    · simp [h1, h2]

/-- Claim C6 (confirmed).  The cleaning rules are idempotent: re-applying
Rule 1 (replace "No internet service" by "No" in the six service-attribute
columns) and Rule 2 (replace "No phone service" by "No" in
`MultipleLines`) to an already-cleaned table changes nothing, for every
input table. -/
theorem C6_cleaning_idempotent (df : Table) :
    applyRules12 (applyRules12 df) = applyRules12 df := by
  unfold applyRules12
  rw [List.map_map]
  have h : rules12Col ∘ rules12Col = rules12Col := funext rules12Col_idem
  rw [h]

/-- Claim C2 (confirmed).  On a target column with exactly two distinct
string values `a < b` (lexicographically), the fitted label mapping is
`classes_ = [a, b]`, so `a ↦ 0` and `b ↦ 1` (a bijection onto `{0, 1}`
ordered lexicographically); decoding the encoded vector through the
persisted mapping reconstructs the original label vector exactly, and
refitting on any label list with the same distinct values yields an
identical mapping. -/
theorem C2_label_encoder_bijection (ys : List String) (a b : String)
    (hab : strLeP a b) (hne : a ≠ b) (hset : List.Perm ys.dedup [a, b]) :
    leClasses ys = [a, b]
    ∧ leTransform (leClasses ys) a = 0
    ∧ leTransform (leClasses ys) b = 1
    ∧ (∀ y ∈ ys, leInverse (leClasses ys) (leTransform (leClasses ys) y) = y)
    ∧ (ys.map (leTransform (leClasses ys))).map (leInverse (leClasses ys)) = ys
    ∧ (∀ zs : List String, List.Perm zs.dedup ys.dedup → leClasses zs = leClasses ys) := by
  have hcls : leClasses ys = [a, b] := by
    rw [leClasses_eq_sort]
    exact sortDedup_pair hab hset
  have hta : leTransform (leClasses ys) a = 0 := by
    unfold leTransform
    rw [hcls]
    exact List.indexOf_cons_self a [b]
  have htb : leTransform (leClasses ys) b = 1 := by
    unfold leTransform
    rw [hcls]
    rw [List.indexOf_cons_ne [b] hne, List.indexOf_cons_self b []]
  have hmem : ∀ y ∈ ys, y = a ∨ y = b := by
    intro y hy
    have h1 : y ∈ ys.dedup := List.mem_dedup.mpr hy
    have h2 : y ∈ [a, b] := hset.mem_iff.mp h1
    simpa using h2
  have hrt : ∀ y ∈ ys, leInverse (leClasses ys) (leTransform (leClasses ys) y) = y := by
    intro y hy
    rcases hmem y hy with rfl | rfl
    · rw [hta]
      unfold leInverse
      rw [hcls]
      rfl
    · rw [htb]
      unfold leInverse
      rw [hcls]
      rfl
  refine ⟨hcls, hta, htb, hrt, ?_, ?_⟩
  · rw [List.map_map]
    have := List.map_congr_left (f := leInverse (leClasses ys) ∘ leTransform (leClasses ys))
      (g := id) (fun y hy => hrt y hy)
    rw [this, List.map_id]
  · intro zs hzs
    rw [leClasses_eq_sort, leClasses_eq_sort]
    exact sortDedup_eq_of_perm hzs

/-- Claim C3 (confirmed).  Every value produced by the fitted numeric
pipeline (mean imputation then `(x - min)/(max - min)` scaling, fit and
applied on the same column) lies in `[0, 1]`; when the observed values are
all equal (`max = min`, the zero-range edge policy) every output value is
`0`. -/
theorem C3_minmax_unit_interval (cells : List (Option ℚ)) :
    ((∃ x ∈ obsVals cells, ∃ y ∈ obsVals cells, x ≠ y) →
        ∀ v ∈ numericFitTransform cells, 0 ≤ v ∧ v ≤ 1)
    ∧ ∀ m : ℚ, obsVals cells ≠ [] → (∀ x ∈ obsVals cells, x = m) →
        ∀ v ∈ numericFitTransform cells, v = 0 :=
  ⟨fun _ => numericFitTransform_mem_unit cells,
   fun _ h1 h2 => numericFitTransform_const h1 h2⟩

/-- Claim C4 (confirmed).  One-hot encoding against a fitted vocabulary:
every indicator is 0 or 1; a (imputed) category inside the fitted
vocabulary gets exactly one indicator equal to 1; a category outside the
vocabulary gets all-zero indicators (`handle_unknown='ignore'`, no error);
and at fit-transform time every row's imputed category is inside the
vocabulary. -/
theorem C4_onehot_indicators (fitCells : List Cell) (c : Cell) :
    (∀ x ∈ oneHotRow (fitVocab fitCells) (catImputeStr c), x = 0 ∨ x = 1)
    ∧ (catImputeStr c ∈ fitVocab fitCells →
        (oneHotRow (fitVocab fitCells) (catImputeStr c)).count 1 = 1)
    ∧ (catImputeStr c ∉ fitVocab fitCells →
        ∀ x ∈ oneHotRow (fitVocab fitCells) (catImputeStr c), x = 0)
    ∧ (c ∈ fitCells → catImputeStr c ∈ fitVocab fitCells) := by
  refine ⟨oneHotRow_all01 _ _, ?_, ?_, ?_⟩
  · intro hv
    exact oneHotRow_count_one (sortDedup_nodup (fitCells.map catImputeStr)) hv
  · intro hv
    exact oneHotRow_all_zero hv
  · intro hc
    exact mem_sortDedup.mpr (List.mem_map_of_mem catImputeStr hc)

end Telco

namespace Telco

theorem automate_isOk_iff {df : Table} :
    (automate_preprocessing df).isOk = true ↔ firstFailure df = none := by
  unfold automate_preprocessing
  cases h : firstFailure df with
  | some e => simp [Except.isOk, Except.toBool]
  | none => simp [Except.isOk, Except.toBool]

/-- Claim C7 (corrected).  An unparseable string in `TotalCharges` is
coerced to the missing marker, never to an error (coercion is total with
only number/missing outcomes), and a missing entry is subsequently imputed
with the fit-time mean of the non-missing values.  However, parse failures
do not *never* abort the run: with the schema and type checks passing and
no passthrough column, the run succeeds if and only if every numeric
column (hence `TotalCharges`) retains at least one observed value — if
every entry fails to parse, the mean imputer drops the all-missing column
and the output labeling aborts with a width mismatch (`ValueError`). -/
theorem C7_parse_failure_tolerated :
    (∀ s : String, parseRat s = none → toNumericCell (Cell.str s) = Cell.na)
    ∧ (∀ c : Cell, (toNumericCell c).isNum = true ∨ toNumericCell c = Cell.na)
    ∧ (∀ (cells : List (Option ℚ)) (i : ℕ), cells[i]? = some none →
        (simpleImputerMean cells)[i]? = some (meanOf (obsVals cells)))
    ∧ (∀ df : Table,
        firstMissing df = none →
        (churnCells (cleanAll df)).all Cell.isStr = true →
        typesOk (featureX (cleanAll df)) = true →
        remainderCols (featureX (cleanAll df)) = [] →
        ((automate_preprocessing df).isOk = true
          ↔ noEmptyNum (featureX (cleanAll df)))) := by
  refine ⟨?_, ?_, ?_, ?_⟩
  · intro s hs
    simp only [toNumericCell, hs]
  · intro c
    cases c with
    | str s =>
      cases hp : parseRat s with
      | some q =>
        left
        simp [toNumericCell, hp, Cell.isNum]
      | none =>
        right
        simp [toNumericCell, hp]
    | num q => left; rfl
    | na => right; rfl
  · intro cells i hi
    unfold simpleImputerMean
    rw [List.getElem?_map, hi]
    rfl
  · intro df hm hA hB hrem
    rw [automate_isOk_iff]
    constructor
    · intro hff
      by_contra hnum
      have hw := widths_differ_of_empty_num hnum hrem
      exact hw (firstFailure_none_elim hff).2.2.2
    · intro hnum
      exact firstFailure_none_intro hm hA hB (widths_match_of_good hnum hrem)

/-- Claim C10 (corrected).  A missing categorical value is imputed with the
literal string `"missing"` before one-hot encoding.  If the fit data had
neither a missing value nor the literal category `"missing"`, then
`"missing"` is absent from the fitted vocabulary and a missing value at
transform time yields all-zero indicators; the claim's phrasing "no
missing values at fit time implies all-zero" is refuted by a fit column
whose literal string value is `"missing"`.  If the fit data did have a
missing value, `"missing"` is in the vocabulary, a missing transform value
gets exactly one indicator 1, located exactly at the vocabulary slot
`"missing"`, and the corresponding output column is named
`"<column>_missing"`. -/
theorem C10_missing_sentinel (fitCells : List Cell) :
    ((Cell.na ∉ fitCells ∧ Cell.str "missing" ∉ fitCells
        ∧ (∀ x ∈ fitCells, x.isStr = true ∨ x = Cell.na)) →
      ("missing" ∉ fitVocab fitCells
        ∧ ∀ x ∈ oneHotRow (fitVocab fitCells) (catImputeStr Cell.na), x = 0))
    ∧ (Cell.na ∈ fitCells →
      ("missing" ∈ fitVocab fitCells
        ∧ (oneHotRow (fitVocab fitCells) (catImputeStr Cell.na)).count 1 = 1
        ∧ ∀ i : ℕ, (oneHotRow (fitVocab fitCells) (catImputeStr Cell.na))[i]?
            = ((fitVocab fitCells)[i]?).map
                (fun u => if u = "missing" then (1 : ℚ) else 0)))
    ∧ (∀ c : Column, c.dtype = DType.obj → Cell.na ∈ c.cells →
        OutCol.mk (c.name ++ "_" ++ "missing")
            (c.cells.map (fun x => Cell.num (if catImputeStr x = "missing" then 1 else 0)))
          ∈ catBlock [c]) := by
  refine ⟨?_, ?_, ?_⟩
  · rintro ⟨hna, hlit, hwf⟩
    have hnotin : "missing" ∉ fitVocab fitCells := by
      intro hmem
      have h2 : "missing" ∈ fitCells.map catImputeStr := mem_sortDedup.mp hmem
      rcases List.mem_map.mp h2 with ⟨x, hx, hxe⟩
      rcases hwf x hx with hs | rfl
      · cases x with
        | str s =>
          unfold catImputeStr at hxe
          subst hxe
          exact hlit hx
        | num q => cases hs
        | na => cases hs
      · exact hna hx
    exact ⟨hnotin, oneHotRow_all_zero hnotin⟩
  · intro hna
    have hin : "missing" ∈ fitVocab fitCells :=
      mem_sortDedup.mpr (List.mem_map.mpr ⟨Cell.na, hna, rfl⟩)
    refine ⟨hin, oneHotRow_count_one (sortDedup_nodup _) hin, ?_⟩
    intro i
    unfold oneHotRow
    rw [List.getElem?_map]
    rfl
  · intro c hdt hna
    unfold catBlock
    apply List.mem_flatMap.mpr
    refine ⟨c, ?_, ?_⟩
    · unfold categoricalCols
      simp [hdt]
    · apply List.mem_map.mpr
      refine ⟨"missing", ?_, rfl⟩
      exact mem_sortDedup.mpr (List.mem_map.mpr ⟨Cell.na, hna, rfl⟩)

end Telco

namespace Telco

theorem mem_featureX_of {df : Table} {c : Column} (h : c ∈ featureX df) : c ∈ df := by
  unfold featureX dropColTotal at h
  exact List.mem_of_mem_filter (List.mem_of_mem_filter h)

theorem cleanAll_col_length {df : Table} {n : ℕ}
    (hrect : ∀ c ∈ df, c.cells.length = n) :
    ∀ c ∈ cleanAll df, c.cells.length = n := by
  intro c hc
  rw [cleanAll_eq_map] at hc
  rcases List.mem_map.mp hc with ⟨c0, hc0, heq⟩
  rw [← heq, cleanCol_cells_length]
  exact hrect c0 hc0

theorem churn_isSome_of_firstMissing {df : Table} (hm : firstMissing df = none) :
    ∃ c ∈ df, findCol df "Churn" = some c := by
  have hmem : "Churn" ∈ requiredCols := by decide
  have h1 : ¬ findCol df "Churn" = none := by
    have h0 := List.find?_eq_none.mp hm "Churn" hmem
    simpa using h0
  cases hf : findCol df "Churn" with
  | none => exact absurd hf h1
  | some c => exact ⟨c, List.mem_of_find?_eq_some hf, rfl⟩

/-- Claim C1 (corrected).  The source never checks the cardinality of the
target column: no `LabelCardinalityError` (or any cardinality check)
exists.  For any input frame whose schema and dtypes are coherent, whose
numeric feature columns each retain an observed value and which has no
passthrough column, the run succeeds and writes all four artifacts —
entirely independently of how many distinct values the target has (the
encoder simply maps the k distinct labels to 0..k-1 in lexicographic
order). -/
theorem C1_no_cardinality_check (df : Table)
    (hm : firstMissing df = none)
    (hA : (churnCells (cleanAll df)).all Cell.isStr = true)
    (hB : typesOk (featureX (cleanAll df)) = true)
    (hnum : noEmptyNum (featureX (cleanAll df)))
    (hrem : remainderCols (featureX (cleanAll df)) = []) :
    automate_preprocessing df = Except.ok (runCore df) := by
  unfold automate_preprocessing
  rw [firstFailure_none_intro hm hA hB (widths_match_of_good hnum hrem)]

/-- Claim C5 (confirmed).  For a rectangular input frame with `n` rows whose
run succeeds, every column of the output feature table has exactly `n`
cells and the encoded target has exactly `n` entries (no rows dropped or
duplicated by cleaning, splitting or fit-transform); and applying the
fitted, persisted transformer to any row yields a vector whose length is
the fixed width of the fitted transformer, independent of the row. -/
theorem C5_row_count_preserved (df : Table) (n : ℕ)
    (hrect : ∀ c ∈ df, c.cells.length = n)
    (out : RunOutput) (hok : automate_preprocessing df = Except.ok out) :
    (∀ oc ∈ out.X_processed, oc.cells.length = n)
    ∧ out.y_encoded.length = n
    ∧ (∀ row : String → Cell,
        (out.preprocessor.transformRow row).length = out.preprocessor.width) := by
  obtain ⟨hff, rfl⟩ := automate_ok_elim hok
  have hXlen : ∀ c ∈ featureX (cleanAll df), c.cells.length = n := fun c hc =>
    cleanAll_col_length hrect c (mem_featureX_of hc)
  refine ⟨?_, ?_, fun row => FittedPreprocessor.transformRow_length _ row⟩
  · intro oc hoc
    have hoc2 : oc ∈ assignNames (allFeatureNames (featureX (cleanAll df)))
        (fitTransformTable (featureX (cleanAll df))) := hoc
    rcases mem_assignNames hoc2 with ⟨b, hb, hbe⟩
    rw [hbe]
    unfold fitTransformTable at hb
    rcases List.mem_append.mp hb with hb12 | hbr
    · rcases List.mem_append.mp hb12 with hbn | hbc
      · rcases mem_numBlock_shape hbn with ⟨c, hc, hlen⟩
        rw [hlen]
        exact hXlen c (List.mem_of_mem_filter hc)
      · rcases mem_catBlock_shape hbc with ⟨c, hc, hlen⟩
        rw [hlen]
        exact hXlen c (List.mem_of_mem_filter hc)
    · rcases mem_remBlock_shape hbr with ⟨c, hc, hlen⟩
      rw [hlen]
      exact hXlen c (List.mem_of_mem_filter hc)
  · have hAll : (churnCells (cleanAll df)).all Cell.isStr = true :=
      (firstFailure_none_elim hff).2.1
    have hm : firstMissing df = none := (firstFailure_none_elim hff).1
    rcases churn_isSome_of_firstMissing hm with ⟨c, hcdf, hcfind⟩
    have hcc : churnCells df = c.cells := by
      unfold churnCells
      rw [hcfind]
    have hy : (runCore df).y_encoded.length
        = ((churnCells (cleanAll df)).filterMap fun x =>
            match x with
            | Cell.str s => some s
            | _ => none).length := by
      simp [runCore]
    rw [hy]
    rw [length_filterMap_all_isSome]
    · rw [churnCells_cleanAll, hcc]
      exact hrect c hcdf
    · intro x hx
      have hxs : x.isStr = true := by
        have := List.all_eq_true.mp hAll x hx
        simpa using this
      cases x with
      | str s => rfl
      | num q => cases hxs
      | na => cases hxs

/-- Claim C8 (confirmed).  In every successful run the output feature
table's column labels are exactly `all_feature_names`: the numeric column
names in their original order followed by the one-hot names
`"<column>_<category>"` in fitted vocabulary order (by categorical column,
then by category); and when no numeric column was discarded by the
imputer, the output columns themselves are exactly the transformed numeric
block followed by the one-hot block. -/
theorem C8_output_column_order (df : Table) (out : RunOutput)
    (hok : automate_preprocessing df = Except.ok out) :
    out.X_processed.map OutCol.name = allFeatureNames (featureX (cleanAll df))
    ∧ (noEmptyNum (featureX (cleanAll df)) →
        out.X_processed
          = numBlock (featureX (cleanAll df)) ++ catBlock (featureX (cleanAll df))) := by
  obtain ⟨hff, rfl⟩ := automate_ok_elim hok
  have hlen := (firstFailure_none_elim hff).2.2.2
  constructor
  · exact assignNames_names hlen.symm
  · intro hnum
    have hnb := numBlock_length_eq_iff.mpr hnum
    have hcb := catBlock_length (featureX (cleanAll df))
    have hnames := allFeatureNames_length (featureX (cleanAll df))
    have hfit := fitTransformTable_length (featureX (cleanAll df))
    have hremlen : (remBlock (featureX (cleanAll df))).length = 0 := by omega
    have hrem : remBlock (featureX (cleanAll df)) = [] :=
      List.length_eq_zero.mp hremlen
    have hnumNames : (numericCols (featureX (cleanAll df))).map Column.name
        = (numBlock (featureX (cleanAll df))).map OutCol.name := by
      have hmap : numBlock (featureX (cleanAll df))
          = (numericCols (featureX (cleanAll df))).map (fun c =>
              OutCol.mk c.name
                ((numericFitTransform (c.cells.map cellNum?)).map Cell.num)) := by
        apply filterMap_eq_map_of_all
        intro c hc
        unfold numColOut
        rw [if_neg (hnum c hc)]
      rw [hmap, List.map_map]
      rfl
    have hcatNames : ((categoricalCols (featureX (cleanAll df))).map (fun c =>
          (fitVocab c.cells).map (fun v => c.name ++ "_" ++ v))).flatten
        = (catBlock (featureX (cleanAll df))).map OutCol.name := by
      unfold catBlock
      rw [List.map_flatMap, ← List.flatMap_def]
      congr 1
      funext c
      rw [List.map_map]
      rfl
    have hblocknames : allFeatureNames (featureX (cleanAll df))
        = (numBlock (featureX (cleanAll df))
            ++ catBlock (featureX (cleanAll df))).map OutCol.name := by
      rw [List.map_append, ← hnumNames, ← hcatNames]
      rfl
    have hblocks : fitTransformTable (featureX (cleanAll df))
        = numBlock (featureX (cleanAll df)) ++ catBlock (featureX (cleanAll df)) := by
      unfold fitTransformTable
      rw [hrem, List.append_nil]
    show assignNames (allFeatureNames (featureX (cleanAll df)))
        (fitTransformTable (featureX (cleanAll df)))
      = numBlock (featureX (cleanAll df)) ++ catBlock (featureX (cleanAll df))
    rw [hblocks, hblocknames, assignNames_self]

/-- Claim C9 (corrected).  A feature column that is neither numeric nor
categorical is passed through unchanged by the fitted `ColumnTransformer`
(it appears, values untouched, after the numeric and one-hot blocks of
`fit_transform`'s output array) — but the run then fails with a
`ValueError` while labeling the output table, because
`all_feature_names` covers only the numeric and one-hot columns, so no
output feature table is produced. -/
theorem C9_passthrough_then_value_error (df : Table)
    (hm : firstMissing df = none)
    (hA : (churnCells (cleanAll df)).all Cell.isStr = true)
    (hB : typesOk (featureX (cleanAll df)) = true)
    (hnum : noEmptyNum (featureX (cleanAll df)))
    (hrem : remainderCols (featureX (cleanAll df)) ≠ []) :
    (∀ c ∈ remainderCols (featureX (cleanAll df)),
        OutCol.mk c.name c.cells ∈ fitTransformTable (featureX (cleanAll df)))
    ∧ automate_preprocessing df = Except.error PErr.valueError := by
  constructor
  · intro c hc
    unfold fitTransformTable
    apply List.mem_append.mpr
    right
    unfold remBlock
    exact List.mem_map.mpr ⟨c, hc, rfl⟩
  · unfold automate_preprocessing
    have hff : firstFailure df = some PErr.valueError := by
      unfold firstFailure
      rw [hm, if_neg (by simp [hA]), if_neg (by simp [hB]),
        if_pos (widths_differ_of_rem hnum hrem)]
    rw [hff]

end Telco

namespace Telco

/-! ## Concrete counterexamples and witnesses

The arithmetic of `ℚ` in Batteries is marked `@[irreducible]`, which only
affects how the front end unfolds definitions; re-marking it
`semireducible` lets `decide` evaluate the embedded pipeline on concrete
frames. -/

attribute [local semireducible] Rat.add Rat.mul Rat.inv Rat.sub Rat.ofScientific

set_option maxRecDepth 8000

/-- Claim C1, counterexample to the claim as stated: on a frame whose target
column has THREE distinct values ("A", "C", "B"), the run does not fail
with any error — it succeeds, encodes the target as [0, 2, 1]
(lexicographic ranks), and produces all four artifacts. -/
theorem C1_counterexample :
    (automate_preprocessing tbl3).map RunOutput.y_encoded = Except.ok [0, 2, 1]
    ∧ (automate_preprocessing tbl3).isOk = true := by
  constructor
  · decide
  · decide

/-- Witness for `C1_no_cardinality_check` at the binary-target frame. -/
theorem C1_witness : automate_preprocessing tblBin = Except.ok (runCore tblBin) :=
  C1_no_cardinality_check tblBin (by decide) (by decide) (by decide)
    (by decide) (by decide)

/-- Witness for `C2_label_encoder_bijection` on the labels the dataset
actually has. -/
theorem C2_witness :
    leClasses ["No", "Yes", "No"] = ["No", "Yes"]
    ∧ leTransform (leClasses ["No", "Yes", "No"]) "No" = 0
    ∧ leTransform (leClasses ["No", "Yes", "No"]) "Yes" = 1
    ∧ (["No", "Yes", "No"].map (leTransform (leClasses ["No", "Yes", "No"]))).map
        (leInverse (leClasses ["No", "Yes", "No"])) = ["No", "Yes", "No"] := by
  have h := C2_label_encoder_bijection ["No", "Yes", "No"] "No" "Yes"
    (by decide) (by decide) (by decide)
  exact ⟨h.1, h.2.1, h.2.2.1, h.2.2.2.2.1⟩

/-- Witness for `C3_minmax_unit_interval`: a column with two distinct
observed values and a missing entry stays inside `[0, 1]`; a constant
column with a missing entry maps to all zeros. -/
theorem C3_witness :
    (∀ v ∈ numericFitTransform [some 0, some 2, none], 0 ≤ v ∧ v ≤ 1)
    ∧ (∀ v ∈ numericFitTransform [some 3, none, some 3], v = 0) := by
  constructor
  · exact (C3_minmax_unit_interval [some 0, some 2, none]).1 (by decide)
  · exact (C3_minmax_unit_interval [some 3, none, some 3]).2 3 (by decide) (by decide)

/-- Witness for `C4_onehot_indicators`: a known category gets exactly one
indicator 1, an unseen category gets all zeros. -/
theorem C4_witness :
    (oneHotRow (fitVocab [Cell.str "Yes", Cell.str "No"])
        (catImputeStr (Cell.str "No"))).count 1 = 1
    ∧ (∀ x ∈ oneHotRow (fitVocab [Cell.str "Yes", Cell.str "No"])
        (catImputeStr (Cell.str "Maybe")), x = 0) := by
  constructor
  · exact (C4_onehot_indicators [Cell.str "Yes", Cell.str "No"] (Cell.str "No")).2.1
      (by decide)
  · exact (C4_onehot_indicators [Cell.str "Yes", Cell.str "No"] (Cell.str "Maybe")).2.2.1
      (by decide)

/-- Witness for `C5_row_count_preserved` at the three-row binary frame. -/
theorem C5_witness :
    (∀ oc ∈ (runOf tblBin).X_processed, oc.cells.length = 3)
    ∧ (runOf tblBin).y_encoded.length = 3 := by
  have h := C5_row_count_preserved tblBin 3 (by decide) (runOf tblBin) (by decide)
  exact ⟨h.1, h.2.1⟩

/-- Claim C7, counterexample to "parse failures in this column never abort
the run": when EVERY `TotalCharges` entry fails to parse the whole run
aborts with a `ValueError` (the all-missing column is dropped by the mean
imputer and the output labeling width check fails). -/
theorem C7_counterexample :
    automate_preprocessing tblBad = Except.error PErr.valueError := by
  decide

/-- Witness for `C7_parse_failure_tolerated`. -/
theorem C7_witness :
    toNumericCell (Cell.str "n/a") = Cell.na
    ∧ (simpleImputerMean [some 1, none])[1]? = some (meanOf (obsVals [some 1, none]))
    ∧ ((automate_preprocessing tblBad).isOk = true
        ↔ noEmptyNum (featureX (cleanAll tblBad))) := by
  refine ⟨C7_parse_failure_tolerated.1 "n/a" (by decide), ?_, ?_⟩
  · exact C7_parse_failure_tolerated.2.2.1 [some 1, none] 1 (by decide)
  · exact C7_parse_failure_tolerated.2.2.2 tblBad (by decide) (by decide) (by decide)
      (by decide)

/-- Witness for `C8_output_column_order` at the binary frame. -/
theorem C8_witness :
    (runOf tblBin).X_processed.map OutCol.name
      = allFeatureNames (featureX (cleanAll tblBin)) :=
  (C8_output_column_order tblBin (runOf tblBin) (by decide)).1

/-- Claim C9, counterexample to the claim as stated: adding a feature column
that is neither numeric nor `object`-typed makes the run FAIL (with a
`ValueError` at the output-labeling step), so its values never reach an
output feature table. -/
theorem C9_counterexample :
    automate_preprocessing tblExtra = Except.error PErr.valueError := by
  decide

/-- Witness for `C9_passthrough_then_value_error` at the frame with the
extra `bool` column: the column appears unchanged inside `fit_transform`'s
output, and the run errors. -/
theorem C9_witness :
    OutCol.mk "Extra" [Cell.num 1, Cell.num 0, Cell.num 1]
        ∈ fitTransformTable (featureX (cleanAll tblExtra))
    ∧ automate_preprocessing tblExtra = Except.error PErr.valueError := by
  have h := C9_passthrough_then_value_error tblExtra (by decide) (by decide)
    (by decide) (by decide) (by decide)
  exact ⟨h.1 ⟨"Extra", DType.boolean, [Cell.num 1, Cell.num 0, Cell.num 1]⟩ (by decide),
    h.2⟩

/-- Claim C10, counterexample to "no missing values at fit time implies
`\"missing\"` is absent from the vocabulary and all-zero indicators": a fit
column containing the literal string "missing" (and no missing value at
all) still puts "missing" into the vocabulary, and a missing transform
value then gets indicator 1, not all zeros. -/
theorem C10_counterexample :
    fitVocab [Cell.str "missing"] = ["missing"]
    ∧ oneHotRow (fitVocab [Cell.str "missing"]) (catImputeStr Cell.na) = [1]
    ∧ Cell.na ∉ [Cell.str "missing"] := by
  refine ⟨by decide, by decide, by decide⟩

/-- Witness for `C10_missing_sentinel`. -/
theorem C10_witness :
    ("missing" ∉ fitVocab [Cell.str "Yes"]
      ∧ ∀ x ∈ oneHotRow (fitVocab [Cell.str "Yes"]) (catImputeStr Cell.na), x = 0)
    ∧ ("missing" ∈ fitVocab [Cell.str "Yes", Cell.na]
      ∧ (oneHotRow (fitVocab [Cell.str "Yes", Cell.na]) (catImputeStr Cell.na)).count 1
          = 1) := by
  constructor
  · exact (C10_missing_sentinel [Cell.str "Yes"]).1 ⟨by decide, by decide, by decide⟩
  · have h := (C10_missing_sentinel [Cell.str "Yes", Cell.na]).2.1 (by decide)
    exact ⟨h.1, h.2.1⟩

end Telco
